import Mathlib

/-
Shallow embedding of src/hotmic.py (push-to-talk voice-capture client).

The embedding models the capture/session coordination engine at the
granularity the source exposes:
  * `Recorder`   — the CaptureController (audio device + thread-safe queue);
    the queue is a FIFO list, the device stream an `Option Unit`, and the
    device-level calls performed by `start`/`stop` are returned as a list of
    `DevOp` so that "same effect" can be stated about them.
  * `Session`    — the TranscriptSession; the websocket is `Option WS`,
    outbound frames are returned explicitly as `List Frame`, and inbound
    frames are fed to the receive loop as `RxMsg` values describing the
    outcome of `json.loads` on each text frame.
  * `HotMicState` — the RecordingCoordinator; `log` accumulates every frame
    handed to the transport, in order.
Real time is abstracted: sleeps are dropped, and `wait_final` takes the time
at which the final event fires (if ever) as a parameter and returns the
elapsed wait.  Machine-level concurrency is modelled at the granularity of
the source's own loop iterations: `Ev.push` is one audio-callback delivery,
`Ev.poll` one iteration of `HotMic._sender_loop`.
-/

/-- One fixed-size block of raw PCM bytes (Python `bytes`). -/
abbrev Chunk := List Nat

/-- A frame handed to the transport, in the order the code sends them:
binary audio frames, and the JSON text control messages with type
start_recording and stop_recording. -/
inductive Frame where
  | audio (c : Chunk)
  | startMsg
  | stopMsg
deriving DecidableEq

/-- A device-level call the Recorder makes on the sounddevice stream. -/
inductive DevOp where
  | streamOpen
  | streamStart
  | streamStop
  | streamClose
deriving DecidableEq

/-- State of `Recorder` in hotmic.py: the `_running` threading.Event, the
queue `_q` of chunks (FIFO, head = oldest), and the `_stream` handle. -/
structure Recorder where
  _running : Bool
  _q : List Chunk
  _stream : Option Unit
deriving DecidableEq

/-- `Recorder.__init__`: cleared running flag, empty queue, no stream. -/
def Recorder.init : Recorder :=
  { _running := false, _q := [], _stream := none }

/-- `Recorder.start`: no-op if `_running` is already set; otherwise sets the
flag, opens the RawInputStream and starts it. -/
def Recorder.start (r : Recorder) : Recorder × List DevOp :=
  if r._running then (r, [])
  else ({ r with _running := true, _stream := some () },
        [DevOp.streamOpen, DevOp.streamStart])

/-- `Recorder.stop`: clears `_running` first, then — if a stream exists —
stops and closes it (teardown errors suppressed) and drops the handle. -/
def Recorder.stop (r : Recorder) : Recorder × List DevOp :=
  match r._stream with
  | some _ => ({ r with _running := false, _stream := none },
               [DevOp.streamStop, DevOp.streamClose])
  | none => ({ r with _running := false }, [])

/-- The capture callback registered by `Recorder.start`: device status flags
are ignored (non-fatal), and the chunk is enqueued only while `_running`
is set. -/
def callbackPush (r : Recorder) (c : Chunk) : Recorder :=
  if r._running then { r with _q := r._q ++ [c] } else r

/-- `Recorder.get_chunk_nowait`: pops the oldest chunk, or `none` when the
queue is empty. -/
def get_chunk_nowait (r : Recorder) : Recorder × Option Chunk :=
  match r._q with
  | [] => (r, none)
  | c :: rest => ({ r with _q := rest }, some c)

/-- `Recorder.drain_remaining`: sleeps for the given wait (time is not
modelled) and then non-blockingly empties the queue, returning the collected
chunks in FIFO order. -/
def drain_remaining (r : Recorder) (_waitDuration : Nat) : Recorder × List Chunk :=
  ({ r with _q := [] }, r._q)

/-- The websocket connection object; the code reads only its `closed`
attribute (via getattr with default True). -/
structure WS where
  closed : Bool
deriving DecidableEq

/-- State of `Session` in hotmic.py: socket handle, accumulated transcript,
and the `_open`, `_awaiting_final`, `_final_event`, `_rx_stop` flags. -/
structure Session where
  ws : Option WS
  transcript : String
  _open : Bool
  _awaiting_final : Bool
  _final_event : Bool
  _rx_stop : Bool
deriving DecidableEq

/-- `Session.__init__`: no socket, empty transcript, all flags cleared. -/
def Session.init : Session :=
  { ws := none, transcript := "", _open := false, _awaiting_final := false,
    _final_event := false, _rx_stop := false }

/-- Outcome of `asyncio.wait_for(websockets.connect ..)`: either a fresh open
socket, or a TimeoutError. -/
inductive ConnectOutcome where
  | success
  | timeout
deriving DecidableEq

/-- `Session.connect`: clears `_final_event` and `_rx_stop` and resets the
transcript, then awaits the connection (bounded by the connect timeout).
On timeout the resets have already happened but no socket is installed and
the exception propagates (second component `false`); on success the new open
socket is installed, `_open` is set and the receive task is spawned. -/
def Session.connect (s : Session) (o : ConnectOutcome) : Session × Bool :=
  let s1 : Session := { s with _final_event := false, _rx_stop := false, transcript := "" }
  match o with
  | ConnectOutcome.timeout => (s1, false)
  | ConnectOutcome.success =>
      ({ s1 with ws := some { closed := false }, _open := true }, true)

/-- Models `getattr(self.ws, "closed", True)`. -/
def wsClosedAttr : Option WS → Bool
  | none => true
  | some w => w.closed

/-- The outcome of `json.loads` on one inbound text frame, as `_receiver`
views it.  `jsonError` is a frame that is not valid JSON (loads raises, the
loop continues); `nonObject` is valid JSON that is not a JSON object — a
number, string, array, bool or null — on which `data.get` raises
AttributeError; `obj` is a JSON object, with the four fields the code reads,
typed as the wire schema types them (`isNewResponse` is the Python
truthiness of that field, absent fields are `none`/falsy). -/
inductive RxMsg where
  | jsonError
  | nonObject
  | obj (typ : Option String) (isNewResponse : Bool)
        (content : Option String) (status : Option String)
deriving DecidableEq

/-- The body of `Session._receiver`'s `async for` loop for one message:
`some s` is the state after the message is handled (or skipped via
`continue`), `none` means an exception escaped the body, ending the loop. -/
def receiverStep (s : Session) (m : RxMsg) : Option Session :=
  match m with
  | RxMsg.jsonError => some s
  | RxMsg.nonObject => none
  | RxMsg.obj typ isNewResponse content status =>
    if typ = some "text" then
      if isNewResponse then some { s with transcript := content.getD "" }
      else some { s with transcript := s.transcript ++ content.getD "" }
    else if typ = some "status" then
      if status == some "idle" && s._awaiting_final then
        some { s with _final_event := true }
      else some s
    else if typ = some "error" then some { s with _final_event := true }
    else some s

/-- The `finally` block of `Session._receiver`: the connection is marked
closed and `_rx_stop` is set. -/
def receiverEnd (s : Session) : Session :=
  { s with _open := false, _rx_stop := true }

/-- `Session._receiver` over the whole inbound stream: processes messages in
order; any exception escaping a message body is swallowed by the outer
`except` and ends the loop (later messages are never seen); either way the
`finally` block runs. -/
def receiverRun (s : Session) (msgs : List RxMsg) : Session :=
  match msgs with
  | [] => receiverEnd s
  | m :: rest =>
    match receiverStep s m with
    | some s1 => receiverRun s1 rest
    | none => receiverEnd s

/-- `Session.start_recording`: reconnects when the socket is missing, closed
(getattr default True) or not open, then sends the start_recording control
message on the socket.  Returns (state, success, frames sent); on a connect
timeout the exception propagates (success `false`, nothing sent). -/
def start_recording (s : Session) (o : ConnectOutcome) : Session × Bool × List Frame :=
  if s.ws.isNone || wsClosedAttr s.ws || !s._open then
    match Session.connect s o with
    | (s1, false) => (s1, false, [])
    | (s1, true) => (s1, true, [Frame.startMsg])
  else (s, true, [Frame.startMsg])

/-- `Session.send_audio`: transmits the chunk as a binary frame iff the
socket exists (truthy), `_open` is set and the chunk is non-empty bytes;
otherwise nothing is sent and the state is untouched. -/
def send_audio (s : Session) (chunk : Chunk) : Session × List Frame :=
  if s.ws.isSome && s._open && !chunk.isEmpty then (s, [Frame.audio chunk])
  else (s, [])

/-- `Session.stop_recording`: sets `_awaiting_final`, then sends the
stop_recording control message; if the socket is `None` that send raises
AttributeError (frame component `none`) — the flag has already been set. -/
def stop_recording (s : Session) : Session × Option Frame :=
  match s.ws with
  | none => ({ s with _awaiting_final := true }, none)
  | some _ => ({ s with _awaiting_final := true }, some Frame.stopMsg)

/-- `Session.wait_final`: awaits `_final_event` with the given timeout.
`firesAt` is the instant (time units from the start of the wait) at which
the receive loop sets the event, `none` if it never does; if the event is
already set the wait returns immediately.  A TimeoutError is caught
(`except: pass`), so the wait always returns normally; the second component
is the elapsed wait time.  The `finally` block clears `_awaiting_final` and
the event for reuse. -/
def wait_final (s : Session) (firesAt : Option Nat) (timeout : Nat) : Session × Nat :=
  let fires := if s._final_event then some 0 else firesAt
  let elapsed := match fires with
    | some t => min t timeout
    | none => timeout
  ({ s with _awaiting_final := false, _final_event := false }, elapsed)

/-- `Session.close`: closes the socket (errors suppressed), cancels the
receive task, and resets `_open`, `ws` and `_awaiting_final`. -/
def Session.close (s : Session) : Session :=
  { s with _open := false, ws := none, _awaiting_final := false }

/-- The frames produced by `for c in remaining: await send_audio(c)` in
`HotMic.stop`'s `_finalize`: sequential `send_audio` calls in list order
(the session state is never changed by `send_audio`). -/
def sendsOf (s : Session) (cs : List Chunk) : List Frame :=
  cs.flatMap (fun c => (send_audio s c).2)

/-- State of `HotMic` in hotmic.py: the `_active` recording flag, the
Recorder (attribute `rec` in the source; renamed because `HotMicState.rec`
is the structure's recursor in Lean), the lazily-created Session, and
`log` — every frame handed to the transport so far, in send order. -/
structure HotMicState where
  _active : Bool
  recorder : Recorder
  _sess : Option Session
  log : List Frame
deriving DecidableEq

/-- `HotMic.start`: no-op if already `_active`.  Otherwise sets `_active`,
starts the Recorder, ensures a Session exists and synchronously awaits
`start_recording`; on success the sender loop is spawned.  The second
component is `true` when `start_recording` raised (connect timeout) — the
exception propagates out of `start` with no cleanup. -/
def HotMic.start (h : HotMicState) (o : ConnectOutcome) : HotMicState × Bool :=
  if h._active then (h, false)
  else
    let h1 : HotMicState := { h with _active := true }
    let rec1 := (Recorder.start h1.recorder).1
    let sess := h1._sess.getD Session.init
    let sr := start_recording sess o
    ({ h1 with recorder := rec1, _sess := some sr.1, log := h1.log ++ sr.2.2 }, !sr.2.1)

/-- Result of `HotMic.stop`: a no-op (not active), an exception propagating
out of the scheduled `_finalize` coroutine (state as mutated so far), or
normal completion carrying the delivered text (`transcript.strip()`) and the
elapsed `wait_final` time. -/
inductive StopResult where
  | noop
  | raised (h : HotMicState)
  | done (h : HotMicState) (delivered : String) (waitElapsed : Nat)
deriving DecidableEq

/-- `HotMic.stop`: no-op if not `_active`.  Otherwise clears `_active` (the
sender loop exits at its next check), stops the Recorder, drains the queue
with the configured flush wait, and runs `_finalize`: forward every drained
chunk via `send_audio` in order, sleep briefly, send stop_recording, await
the final event for 30 units, strip the transcript, close the session.
`firesAt` abstracts when (if ever) the receive loop sets the final event
during the wait. -/
def HotMic.stop (h : HotMicState) (firesAt : Option Nat) : StopResult :=
  if h._active = false then StopResult.noop
  else
    let h1 : HotMicState := { h with _active := false }
    let rec1 := (Recorder.stop h1.recorder).1
    let dr := drain_remaining rec1 0
    match h1._sess with
    | none => StopResult.raised { h1 with recorder := dr.1 }
    | some sess =>
      let frames := sendsOf sess dr.2
      let sr := stop_recording sess
      match sr.2 with
      | none => StopResult.raised
          { h1 with recorder := dr.1, _sess := some sr.1, log := h1.log ++ frames }
      | some f =>
        let wf := wait_final sr.1 firesAt 30
        let text := wf.1.transcript.trim
        let sess3 := Session.close wf.1
        StopResult.done
          { h1 with recorder := dr.1, _sess := some sess3, log := h1.log ++ frames ++ [f] }
          text wf.2

/-- `HotMic.toggle` wrapped by `HotMic.safe_toggle`: stop if `_active`, else
start; any exception is caught and printed, leaving the state exactly as the
failed operation mutated it. -/
def safe_toggle (h : HotMicState) (o : ConnectOutcome) (firesAt : Option Nat) : HotMicState :=
  if h._active then
    match HotMic.stop h firesAt with
    | StopResult.noop => h
    | StopResult.raised h1 => h1
    | StopResult.done h1 _ _ => h1
  else (HotMic.start h o).1

/-- One scheduling event while a recording is active: `push` is one delivery
of the capture callback, `poll` is one iteration of `HotMic._sender_loop`. -/
inductive Ev where
  | push (c : Chunk)
  | poll
deriving DecidableEq

/-- The chunks delivered by the capture callback, in capture order. -/
def pushedChunks (evs : List Ev) : List Chunk :=
  evs.filterMap (fun e => match e with | Ev.push c => some c | Ev.poll => none)

/-- One iteration of `HotMic._sender_loop`: exits (no effect) once `_active`
is cleared; otherwise takes the oldest queued chunk, if any, and forwards it
via `send_audio` (an empty queue just sleeps 10 ms). -/
def senderPoll (h : HotMicState) : HotMicState :=
  if h._active = false then h
  else
    match h._sess with
    | none => h
    | some sess =>
      let gc := get_chunk_nowait h.recorder
      match gc.2 with
      | none => { h with recorder := gc.1 }
      | some c => { h with recorder := gc.1, log := h.log ++ (send_audio sess c).2 }

/-- Interleaved execution step during a recording. -/
def evStep (h : HotMicState) (e : Ev) : HotMicState :=
  match e with
  | Ev.push c => { h with recorder := callbackPush h.recorder c }
  | Ev.poll => senderPoll h

/-- A concrete session with a live open connection, used by witnesses. -/
def sessLive : Session :=
  { ws := some { closed := false }, transcript := "", _open := true,
    _awaiting_final := false, _final_event := false, _rx_stop := false }

/-- A concrete coordinator in the Idle state, fresh from `HotMic.__init__`. -/
def idleHotMic : HotMicState :=
  { _active := false, recorder := Recorder.init, _sess := none, log := [] }

/-- The recorder right after `Recorder.start` from a fresh instance. -/
def startedRecorder : Recorder :=
  (Recorder.start Recorder.init).1

/-- A concrete live session that has sent stop_recording and awaits the
final signal. -/
def sessAwait : Session :=
  { sessLive with _awaiting_final := true }

/-- `sessAwait` after the receive loop has set the final event. -/
def sessIdleSet : Session :=
  { sessAwait with _final_event := true }

/-- A concrete coordinator mid-recording: active, recorder running with an
empty queue, live session, start message already sent. -/
def hRecActive : HotMicState :=
  { _active := true, recorder := startedRecorder, _sess := some sessLive,
    log := [Frame.startMsg] }

theorem pushedChunks_push (c : Chunk) (evs : List Ev) :
    pushedChunks (Ev.push c :: evs) = c :: pushedChunks evs := rfl

theorem pushedChunks_poll (evs : List Ev) :
    pushedChunks (Ev.poll :: evs) = pushedChunks evs := rfl

theorem foldl_callbackPush_running :
    ∀ (cs : List Chunk) (r : Recorder), r._running = true →
      List.foldl callbackPush r cs = { r with _q := r._q ++ cs } := by
  intro cs
  induction cs with
  | nil => intro r _; simp
  | cons c cs ih =>
    intro r hr
    have h1 : callbackPush r c = { r with _q := r._q ++ [c] } := by
      simp [callbackPush, hr]
    rw [List.foldl_cons, h1, ih _ (by simpa using hr)]
    simp

theorem send_audio_live (sess : Session) (w : WS) (hw : sess.ws = some w)
    (ho : sess._open = true) (c : Chunk) (hc : c ≠ []) :
    send_audio sess c = (sess, [Frame.audio c]) := by
  have hcond : (sess.ws.isSome && sess._open && !c.isEmpty) = true := by
    simp [hw, ho, hc]
  simp [send_audio, hcond]

theorem sendsOf_live (sess : Session) (w : WS) (hw : sess.ws = some w)
    (ho : sess._open = true) :
    ∀ (cs : List Chunk), (∀ c ∈ cs, c ≠ []) → sendsOf sess cs = cs.map Frame.audio := by
  intro cs
  induction cs with
  | nil => intro _; rfl
  | cons c cs ih =>
    intro hcs
    have h1 := send_audio_live sess w hw ho c (hcs c (by simp))
    have h2 := ih (fun x hx => hcs x (by simp [hx]))
    simp only [sendsOf, List.flatMap_cons] at h2 ⊢
    rw [h1, h2]
    rfl

theorem receiverStep_status_eq (s : Session) (b : Bool) (c stv : Option String) :
    receiverStep s (RxMsg.obj (some "status") b c stv)
      = some { s with _final_event :=
          s._final_event || (stv == some "idle" && s._awaiting_final) } := by
  have h1 : ¬ ((some "status" : Option String) = some "text") := by decide
  have h2 : ((some "status" : Option String) = some "status") := rfl
  simp only [receiverStep, if_neg h1, if_pos h2]
  cases hcond : (stv == some "idle" && s._awaiting_final) with
  | false => simp
  | true => simp

theorem inactive_run_fixed :
    ∀ (evs : List Ev) (h : HotMicState),
      h._active = false → h.recorder._running = false →
      List.foldl evStep h evs = h := by
  intro evs
  induction evs with
  | nil => intro h _ _; rfl
  | cons e rest ih =>
    intro h hact hrun
    have hstep : evStep h e = h := by
      cases e with
      | push c => simp [evStep, callbackPush, hrun]
      | poll => simp [evStep, senderPoll, hact]
    rw [List.foldl_cons, hstep]
    exact ih h hact hrun

theorem run_spec (sess : Session) (w : WS) (hw : sess.ws = some w)
    (ho : sess._open = true) :
    ∀ (evs : List Ev) (h : HotMicState),
      h._active = true → h._sess = some sess → h.recorder._running = true →
      (∀ c ∈ h.recorder._q, c ≠ []) → (∀ c ∈ pushedChunks evs, c ≠ []) →
      ∃ A q1,
        List.foldl evStep h evs
          = { h with recorder := { h.recorder with _q := q1 },
                     log := h.log ++ A.map Frame.audio }
        ∧ A ++ q1 = h.recorder._q ++ pushedChunks evs
        ∧ (∀ c ∈ q1, c ≠ []) := by
  intro evs
  induction evs with
  | nil =>
    intro h hact hsess hrun hq hp
    refine ⟨[], h.recorder._q, by simp, by simp [pushedChunks], hq⟩
  | cons e rest ih =>
    intro h hact hsess hrun hq hp
    obtain ⟨ha, ⟨rr, rq, rst⟩, hse, hlg⟩ := h
    simp only at hact hsess hrun hq
    subst hact hsess hrun
    cases e with
    | push c =>
      have hc : c ≠ [] := hp c (by rw [pushedChunks_push]; simp)
      have hq' : ∀ x ∈ rq ++ [c], x ≠ [] := by
        intro x hx
        rcases List.mem_append.mp hx with hx1 | hx1
        · exact hq x hx1
        · rw [List.mem_singleton.mp hx1]; exact hc
      have hp' : ∀ x ∈ pushedChunks rest, x ≠ [] := by
        intro x hx; exact hp x (by rw [pushedChunks_push]; simp [hx])
      obtain ⟨A, q1, heq, hsum, hq1⟩ :=
        ih ⟨true, ⟨true, rq ++ [c], rst⟩, some sess, hlg⟩ rfl rfl rfl hq' hp'
      refine ⟨A, q1, ?_, ?_, hq1⟩
      · rw [List.foldl_cons]
        have hstep : evStep ⟨true, ⟨true, rq, rst⟩, some sess, hlg⟩ (Ev.push c)
            = ⟨true, ⟨true, rq ++ [c], rst⟩, some sess, hlg⟩ := by
          simp [evStep, callbackPush]
        rw [hstep, heq]
      · rw [pushedChunks_push]
        simp only at hsum
        rw [hsum]
        simp
    | poll =>
      cases hqv : rq with
      | nil =>
        subst hqv
        have hp' : ∀ x ∈ pushedChunks rest, x ≠ [] := by
          intro x hx; exact hp x (by rw [pushedChunks_poll]; exact hx)
        obtain ⟨A, q1, heq, hsum, hq1⟩ :=
          ih ⟨true, ⟨true, [], rst⟩, some sess, hlg⟩ rfl rfl rfl hq hp'
        refine ⟨A, q1, ?_, ?_, hq1⟩
        · rw [List.foldl_cons]
          have hstep : evStep ⟨true, ⟨true, ([] : List Chunk), rst⟩, some sess, hlg⟩ Ev.poll
              = ⟨true, ⟨true, [], rst⟩, some sess, hlg⟩ := by
            simp [evStep, senderPoll, get_chunk_nowait]
          rw [hstep, heq]
        · rw [pushedChunks_poll]
          simp only at hsum
          rw [hsum]
      | cons c qrest =>
        subst hqv
        have hc : c ≠ [] := hq c (by simp)
        have hsa := send_audio_live sess w hw ho c hc
        have hq' : ∀ x ∈ qrest, x ≠ [] := by
          intro x hx; exact hq x (by simp [hx])
        have hp' : ∀ x ∈ pushedChunks rest, x ≠ [] := by
          intro x hx; exact hp x (by rw [pushedChunks_poll]; exact hx)
        obtain ⟨A, q1, heq, hsum, hq1⟩ :=
          ih ⟨true, ⟨true, qrest, rst⟩, some sess, hlg ++ [Frame.audio c]⟩ rfl rfl rfl hq' hp'
        refine ⟨c :: A, q1, ?_, ?_, hq1⟩
        · rw [List.foldl_cons]
          have hstep : evStep ⟨true, ⟨true, c :: qrest, rst⟩, some sess, hlg⟩ Ev.poll
              = ⟨true, ⟨true, qrest, rst⟩, some sess, hlg ++ [Frame.audio c]⟩ := by
            simp [evStep, senderPoll, get_chunk_nowait, hsa]
          rw [hstep, heq]
          simp
        · rw [pushedChunks_poll]
          simp only at hsum
          rw [List.cons_append, hsum]
          simp

/-- C8: `Recorder.start` (CaptureController.start) called twice consecutively
has the same effect — resulting state and device operations performed — as
calling it once, and likewise for `Recorder.stop`: the second call of each
pair changes nothing and performs no device call. -/
theorem recorder_start_stop_idempotent (r : Recorder) :
    ((Recorder.start (Recorder.start r).1).1 = (Recorder.start r).1
      ∧ (Recorder.start r).2 ++ (Recorder.start (Recorder.start r).1).2
          = (Recorder.start r).2)
    ∧ ((Recorder.stop (Recorder.stop r).1).1 = (Recorder.stop r).1
      ∧ (Recorder.stop r).2 ++ (Recorder.stop (Recorder.stop r).1).2
          = (Recorder.stop r).2) := by
  obtain ⟨ru, q, st⟩ := r
  cases ru <;> cases st <;> simp [Recorder.start, Recorder.stop]

/-- C5: for every sequence of chunks pushed into the queue (by the capture
callback, recorder running) before `drain_remaining` is called, the drain
returns exactly those chunks in push (FIFO) order and leaves the queue
empty. -/
theorem drain_returns_pushed_fifo_and_empties (cs : List Chunk) :
    (drain_remaining (List.foldl callbackPush startedRecorder cs) 0).2 = cs
    ∧ ((drain_remaining (List.foldl callbackPush startedRecorder cs) 0).1)._q = [] := by
  rw [foldl_callbackPush_running cs startedRecorder (by decide)]
  constructor <;> simp [drain_remaining, startedRecorder, Recorder.start, Recorder.init]

/-- C9: `send_audio` transmits the chunk as a binary frame iff the socket
exists, the session is open and the chunk is non-empty; it never mutates the
session, and in every case it either sends that one frame or nothing. -/
theorem send_audio_iff_open_nonempty (s : Session) (c : Chunk) :
    (send_audio s c).1 = s
    ∧ ((send_audio s c).2 = [Frame.audio c]
        ↔ (s.ws.isSome = true ∧ s._open = true ∧ c ≠ []))
    ∧ ((send_audio s c).2 = [Frame.audio c] ∨ (send_audio s c).2 = []) := by
  refine ⟨?_, ?_, ?_⟩
  · unfold send_audio
    split <;> rfl
  · cases c with
    | nil => simp [send_audio]
    | cons x xs =>
      by_cases hw : s.ws.isSome <;> by_cases ho : s._open <;>
        simp [send_audio, hw, ho]
  · unfold send_audio
    split
    · exact Or.inl rfl
    · exact Or.inr rfl

/-- C4: a received text message replaces the accumulated transcript with its
content when flagged as a new response, and appends its content otherwise;
in particular the message with isNewResponse true and content Hello followed
by the message with isNewResponse false and content a space and world leaves
the transcript equal to Hello world. -/
theorem receiver_text_replace_append :
    (∀ (s : Session) (c : String) (st : Option String),
        receiverStep s (RxMsg.obj (some "text") true (some c) st)
          = some { s with transcript := c })
    ∧ (∀ (s : Session) (c : String) (st : Option String),
        receiverStep s (RxMsg.obj (some "text") false (some c) st)
          = some { s with transcript := s.transcript ++ c })
    ∧ ((receiverStep sessLive (RxMsg.obj (some "text") true (some "Hello") none)).bind
        (fun s1 => receiverStep s1 (RxMsg.obj (some "text") false (some " world") none))
        = some { sessLive with transcript := "Hello world" }) := by
  refine ⟨?_, ?_, by decide⟩
  · intro s c st
    simp [receiverStep]
  · intro s c st
    simp [receiverStep]

/-- C10: every call to `Session.connect` resets the accumulated transcript
to the empty string and clears the final-received signal before the new
receive loop starts; and whenever `start_recording` finds the connection
missing, closed or not open (the condition under which it reconnects), the
session it continues with has an empty transcript and a cleared final
signal. -/
theorem connect_resets_transcript_and_final :
    (∀ (s : Session) (o : ConnectOutcome),
        (Session.connect s o).1.transcript = ""
        ∧ (Session.connect s o).1._final_event = false)
    ∧ (∀ (s : Session) (o : ConnectOutcome),
        (s.ws.isNone || wsClosedAttr s.ws || !s._open) = true →
        (start_recording s o).1.transcript = ""
        ∧ (start_recording s o).1._final_event = false) := by
  constructor
  · intro s o
    cases o <;> simp [Session.connect]
  · intro s o hcond
    unfold start_recording
    rw [if_pos hcond]
    cases o <;> simp [Session.connect]

theorem connect_resets_transcript_and_final_witness :
    (start_recording Session.init ConnectOutcome.success).1.transcript = ""
    ∧ (start_recording Session.init ConnectOutcome.success).1._final_event = false :=
  connect_resets_transcript_and_final.2 Session.init ConnectOutcome.success (by decide)

/-- C1 (code bug evidence): starting from Idle, when `start_recording` fails
with a connect timeout inside `HotMic.start`, the exception propagates (the
start is aborted before the sender loop is spawned), but the coordinator is
left with `_active = True` and the recorder still capturing — the state does
not return to Idle, neither in `start` itself nor through the `safe_toggle`
wrapper, which only swallows the exception. -/
theorem hotmicStart_connect_timeout_leaves_active :
    ((HotMic.start idleHotMic ConnectOutcome.timeout).1)._active = true
    ∧ (HotMic.start idleHotMic ConnectOutcome.timeout).2 = true
    ∧ ((HotMic.start idleHotMic ConnectOutcome.timeout).1).recorder._running = true
    ∧ (safe_toggle idleHotMic ConnectOutcome.timeout none)._active = true := by
  decide

/-- C2 (code bug evidence): an inbound frame that is valid JSON but not a
JSON object (for example the payload 42) is not silently ignored: the
AttributeError from `data.get` ends the receive loop, the connection is
marked closed, and the following well-formed text message is never
processed (transcript stays empty).  By contrast, a frame that is not valid
JSON at all is skipped and the loop continues (the same following message
is processed). -/
theorem receiver_nonobject_json_ends_loop :
    (receiverRun sessLive
        [RxMsg.nonObject, RxMsg.obj (some "text") true (some "Hello") none]).transcript = ""
    ∧ (receiverRun sessLive
        [RxMsg.nonObject, RxMsg.obj (some "text") true (some "Hello") none])._open = false
    ∧ (receiverRun sessLive
        [RxMsg.jsonError, RxMsg.obj (some "text") true (some "Hello") none]).transcript
        = "Hello" := by
  decide

/-- C6: a received status message sets the final-received signal iff its
status equals idle and the session is awaiting the final; and if such a
message has arrived while awaiting was set, the `wait_final` invoked by
finalize returns immediately, before its 30-unit timeout elapses. -/
theorem status_idle_sets_final_iff_awaiting :
    (∀ (s : Session) (b : Bool) (c stv : Option String),
        receiverStep s (RxMsg.obj (some "status") b c stv)
          = some { s with _final_event :=
              s._final_event || (stv == some "idle" && s._awaiting_final) })
    ∧ (∀ (s s1 : Session) (b : Bool) (c : Option String) (f : Option Nat),
        s._awaiting_final = true →
        receiverStep s (RxMsg.obj (some "status") b c (some "idle")) = some s1 →
        (wait_final s1 f 30).2 = 0 ∧ (wait_final s1 f 30).2 < 30) := by
  refine ⟨receiverStep_status_eq, ?_⟩
  intro s s1 b c f hawait hstep
  rw [receiverStep_status_eq, Option.some.injEq] at hstep
  have hfe : s1._final_event = true := by
    rw [← hstep, hawait]
    simp
  constructor <;> simp [wait_final, hfe]

theorem status_idle_sets_final_iff_awaiting_witness :
    (wait_final sessIdleSet none 30).2 = 0 ∧ (wait_final sessIdleSet none 30).2 < 30 :=
  status_idle_sets_final_iff_awaiting.2 sessAwait sessIdleSet true none none
    (by decide) (by decide)

/-- C7: if the final-received signal never fires, `wait_final` ends at its
timeout (30 units at the `HotMic.stop` call site) without raising; after the
wait both the awaiting-final flag and the signal are cleared, and the wait
never exceeds its timeout; and a stop on an active coordinator with a live
session that never signals completes as `done`, delivering the stripped
accumulated transcript after exactly the 30-unit wait, with both flags
cleared in the resulting session. -/
theorem wait_final_timeout_no_hang :
    (∀ (s : Session) (t : Nat), s._final_event = false → (wait_final s none t).2 = t)
    ∧ (∀ (s : Session) (f : Option Nat) (t : Nat),
        (wait_final s f t).1._awaiting_final = false
        ∧ (wait_final s f t).1._final_event = false
        ∧ (wait_final s f t).2 ≤ t)
    ∧ (∀ (h : HotMicState) (sess : Session) (w : WS),
        h._active = true → h._sess = some sess → sess.ws = some w →
        sess._final_event = false →
        ∃ h1, HotMic.stop h none = StopResult.done h1 (sess.transcript.trim) 30
          ∧ ∃ s3, h1._sess = some s3
              ∧ s3._awaiting_final = false ∧ s3._final_event = false) := by
  refine ⟨?_, ?_, ?_⟩
  · intro s t hfe
    simp [wait_final, hfe]
  · intro s f t
    refine ⟨rfl, rfl, ?_⟩
    cases hfe : s._final_event <;> cases f <;>
      simp [wait_final, hfe, Nat.min_le_right]
  · intro h sess w hact hsess hw hfe
    obtain ⟨ha, ⟨rr, rq, rst⟩, hse, hlg⟩ := h
    simp only at hact hsess
    subst hact hsess
    obtain ⟨ws0, tr, op, aw, fe, rx⟩ := sess
    simp only at hw hfe
    subst hw hfe
    cases rst with
    | none => exact ⟨_, rfl, _, rfl, rfl, rfl⟩
    | some u => exact ⟨_, rfl, _, rfl, rfl, rfl⟩

theorem wait_final_timeout_no_hang_witness :
    ∃ h1, HotMic.stop hRecActive none = StopResult.done h1 (sessLive.transcript.trim) 30
      ∧ ∃ s3, h1._sess = some s3
          ∧ s3._awaiting_final = false ∧ s3._final_event = false :=
  wait_final_timeout_no_hang.2.2 hRecActive sessLive { closed := false } rfl rfl rfl rfl

/-- C3: with the coordinator mid-recording on a live open session and an
empty queue, after any interleaving of capture-callback deliveries and
sender-loop iterations, `HotMic.stop` completes with a transport log that
extends the previous log by exactly the pushed chunks as audio frames, in
capture (FIFO) order, followed by the stop_recording message; and no event
after the stop can ever extend that log (no audio frame follows the stop
message). -/
theorem stop_sends_all_audio_in_order_before_stop_msg
    (evs : List Ev) (h : HotMicState) (sess : Session) (w : WS) (f : Option Nat)
    (hact : h._active = true) (hsess : h._sess = some sess)
    (hw : sess.ws = some w) (ho : sess._open = true)
    (hrun : h.recorder._running = true) (hq0 : h.recorder._q = [])
    (hp : ∀ c ∈ pushedChunks evs, c ≠ []) :
    ∃ h1 text el,
      HotMic.stop (List.foldl evStep h evs) f = StopResult.done h1 text el
      ∧ h1.log = h.log ++ (pushedChunks evs).map Frame.audio ++ [Frame.stopMsg]
      ∧ ∀ evs2, List.foldl evStep h1 evs2 = h1 := by
  obtain ⟨ha, ⟨rr, rq, rst⟩, hse, hlg⟩ := h
  simp only at hact hsess hrun hq0
  subst hact hsess hrun hq0
  obtain ⟨ws0, tr, op, aw, fe, rx⟩ := sess
  simp only at hw ho
  subst hw ho
  obtain ⟨A, q1, heq, hsum, hq1⟩ :=
    run_spec ⟨some w, tr, true, aw, fe, rx⟩ w rfl rfl evs
      ⟨true, ⟨true, [], rst⟩, some ⟨some w, tr, true, aw, fe, rx⟩, hlg⟩
      rfl rfl rfl (by simp) hp
  simp only [List.nil_append] at hsum
  rw [heq]
  have hfr : sendsOf ⟨some w, tr, true, aw, fe, rx⟩ q1 = q1.map Frame.audio :=
    sendsOf_live ⟨some w, tr, true, aw, fe, rx⟩ w rfl rfl q1 hq1
  cases rst with
  | none =>
    refine ⟨_, _, _, rfl, ?_, ?_⟩
    · simp only [Recorder.stop, drain_remaining, hfr, ← hsum, List.map_append,
        List.append_assoc]
    · intro evs2
      exact inactive_run_fixed evs2 _ rfl rfl
  | some u =>
    refine ⟨_, _, _, rfl, ?_, ?_⟩
    · simp only [Recorder.stop, drain_remaining, hfr, ← hsum, List.map_append,
        List.append_assoc]
    · intro evs2
      exact inactive_run_fixed evs2 _ rfl rfl

theorem stop_sends_all_audio_in_order_before_stop_msg_witness :
    ∃ h1 text el,
      HotMic.stop (List.foldl evStep hRecActive [Ev.push [1], Ev.poll, Ev.push [2, 3]]) none
        = StopResult.done h1 text el
      ∧ h1.log = hRecActive.log
          ++ (pushedChunks [Ev.push [1], Ev.poll, Ev.push [2, 3]]).map Frame.audio
          ++ [Frame.stopMsg]
      ∧ ∀ evs2, List.foldl evStep h1 evs2 = h1 :=
  stop_sends_all_audio_in_order_before_stop_msg
    [Ev.push [1], Ev.poll, Ev.push [2, 3]] hRecActive sessLive { closed := false } none
    (by decide) (by decide) (by decide) (by decide) (by decide) (by decide) (by decide)
